import Mathlib

/-!
Verification development for the cortexluna core library.

Shallow embedding of the TypeScript sources under `packages/core/src`:
pure functions become Lean functions, stateful code becomes explicit state
passing, JavaScript exceptions become `Except.error`, and `undefined`
optional fields become `Option`.  JavaScript runtime values that flow
through `unknown`-typed positions (tool arguments, tool results, message
metadata) are modelled by the JSON-like value type `JVal`.
-/

/-- JSON-like runtime value, modelling the JavaScript values that flow
through `unknown`-typed positions (tool args/results, metadata).  `jnull`
models both `null` and `undefined` (the sources only test them with
`== null` / truthiness). -/
inductive JVal where
  | jnull : JVal
  | jbool : Bool → JVal
  | jnum : Int → JVal
  | jstr : String → JVal
  | jarr : List JVal → JVal
  | jobj : List (String × JVal) → JVal

/-- The JavaScript test `x == null` (matches both `null` and `undefined`,
which `JVal.jnull` models together). -/
def jIsNull : JVal → Bool
  | .jnull => true
  | _ => false

/-- JavaScript `typeof` on a `JVal` (null, arrays and objects all report
`"object"`). -/
def jTypeOf : JVal → String
  | .jnull => "object"
  | .jbool _ => "boolean"
  | .jnum _ => "number"
  | .jstr _ => "string"
  | .jarr _ => "object"
  | .jobj _ => "object"

/-- `Array.isArray`. -/
def jIsArray : JVal → Bool
  | .jarr _ => true
  | _ => false

/-- Property read on a JavaScript object: first binding of the key wins
(JS objects cannot hold duplicate keys; the embedding keeps the invariant
by always writing through `objSet`). -/
def objLookup (k : String) : List (String × JVal) → Option JVal
  | [] => none
  | (k2, v) :: rest => if k2 = k then some v else objLookup k rest

/-- Property write on a JavaScript object: overwrite in place if the key
exists (keeping insertion order), else append. -/
def objSet (k : String) (v : JVal) : List (String × JVal) → List (String × JVal)
  | [] => [(k, v)]
  | (k2, v2) :: rest => if k2 = k then (k2, v) :: rest else (k2, v2) :: objSet k v rest

/-- `merged.findIndex((leftItem) => leftItem.index === item.index)` from
`_mergeLists`: scans for the first element whose `index` property strictly
equals the number `n`.  Reading `.index` off `null` throws a `TypeError`,
which the embedding surfaces as `Except.error`; on every other non-object
value the read yields `undefined` and the comparison is false. -/
def findIndexByIndex (n : Int) : List JVal → Except String (Option Nat)
  | [] => .ok none
  | .jnull :: _ => .error "TypeError: Cannot read properties of null"
  | x :: rest =>
    if (match x with
        | .jobj fields =>
          (match objLookup "index" fields with
           | some (.jnum m) => m == n
           | _ => false)
        | _ => false) then
      .ok (some 0)
    else
      (findIndexByIndex n rest).map (fun o => o.map (· + 1))

mutual

/-- `_mergeDicts(left, right)` from `messages.ts`: key-wise deep merge of
two JavaScript records, iterating the entries of `right`. -/
def mergeDicts (left : List (String × JVal)) (right : List (String × JVal)) :
    Except String (List (String × JVal)) :=
  match right with
  | [] => .ok left
  | (key, value) :: rest => do
    let merged ← mergeOneEntry left key value
    mergeDicts merged rest
termination_by sizeOf right
decreasing_by all_goals simp_wf <;> omega

/-- One iteration of the `_mergeDicts` loop body for the entry
`(key, value)` taken from the right-hand record. -/
def mergeOneEntry (left : List (String × JVal)) (key : String) (value : JVal) :
    Except String (List (String × JVal)) :=
  match objLookup key left with
  | none => .ok (objSet key value left)
  | some cur =>
    if jIsNull cur then
      -- merged[key] == null: take the right-hand value
      .ok (objSet key value left)
    else if jIsNull value then
      -- right-hand value == null: skip
      .ok left
    else if jTypeOf cur ≠ jTypeOf value ∨ jIsArray cur ≠ jIsArray value then
      .error ("field[" ++ key ++ "] already exists in the message chunk, but with a different type.")
    else
      match cur, value with
      | .jstr s1, .jstr s2 =>
        -- strings concatenate, except the tag field named type
        if key = "type" then .ok left else .ok (objSet key (.jstr (s1 ++ s2)) left)
      | .jobj o1, .jobj o2 => do
        let m ← mergeDicts o1 o2
        .ok (objSet key (.jobj m) left)
      | .jarr a1, .jarr a2 => do
        let m ← mergeListsJS a1 a2
        .ok (objSet key (.jarr m) left)
      | _, _ =>
        -- merged[key] === value: skip; otherwise console.warn and keep left.
        -- Both branches leave the accumulator unchanged.
        .ok left
termination_by sizeOf value
decreasing_by all_goals simp_wf

/-- `_mergeLists(left, right)` from `messages.ts`, in the case where both
arguments are present (the only way the message-merge engine reaches it). -/
def mergeListsJS (left : List JVal) (right : List JVal) : Except String (List JVal) :=
  match right with
  | [] => .ok left
  | item :: rest => do
    let merged ← mergeListItem left item
    mergeListsJS merged rest
termination_by sizeOf right
decreasing_by all_goals simp_wf <;> omega

/-- One iteration of the `_mergeLists` loop body for `item` taken from the
right-hand array. -/
def mergeListItem (merged : List JVal) (item : JVal) : Except String (List JVal) :=
  match item with
  | .jnull =>
    -- typeof null is object, so the in operator is applied to null and throws
    .error "TypeError: Cannot use 'in' operator to search for 'index' in null"
  | .jobj fields =>
    match objLookup "index" fields with
    | some (.jnum n) => do
      match (← findIndexByIndex n merged) with
      | some i =>
        match merged.get? i with
        | some (.jobj accFields) => do
          let m ← mergeDicts accFields fields
          .ok (merged.set i (.jobj m))
        | _ =>
          -- cannot happen: findIndexByIndex only selects objects
          .ok (merged ++ [item])
      | none => .ok (merged ++ [item])
    | _ =>
      match objLookup "text" fields with
      | some (.jstr "") => .ok merged -- skip empty text blocks
      | _ => .ok (merged ++ [item])
  | _ => .ok (merged ++ [item])
termination_by sizeOf item
decreasing_by all_goals simp_wf

end

/-- `MessageRole` from `messages/messages.ts`. -/
inductive Role where
  | user
  | assistant
  | system
  | tool
deriving Repr, DecidableEq

def roleToString : Role → String
  | .user => "user"
  | .assistant => "assistant"
  | .system => "system"
  | .tool => "tool"

/-- `ToolCallPart` from `messages/part.ts` (`type: 'tool-call'`). -/
structure ToolCallPart where
  toolCallId : Option String := none
  toolName : String
  args : JVal

/-- `ToolResultPart` from `messages/part.ts` (`type: 'tool-result'`).
The `args` field is not declared on the interface but is written by the
object literals in `generate/tool-call.ts`; it rides along as an extra
JavaScript property. -/
structure ToolResultPart where
  toolCallId : Option String := none
  toolName : String
  result : JVal
  isError : Option Bool := none
  args : Option JVal := none

/-- `MessagePart` from `messages/part.ts`.  `DataContent | URL` payloads of
image/audio/file parts are modelled as their string form (their inner
structure is never inspected by the code under verification). -/
inductive MessagePart where
  | text (text : String)
  | think (think : String)
  | image (image : String) (mineType : Option String)
  | audio (audio : String)
  | file (file : String) (mineType : Option String)
  | toolCall (part : ToolCallPart)
  | toolResult (part : ToolResultPart)

/-- `MessageContent = string | MessagePart[]` from `messages/part.ts`. -/
inductive MessageContent where
  | str (s : String)
  | parts (l : List MessagePart)

/-- `BaseMessage` from `messages/messages.ts`.  `BaseMessageChunk` is the
same data plus the literal tag `chunk: true`, which carries no
information, so chunks are modelled by the same structure. -/
structure BaseMessage where
  role : Role
  content : MessageContent
  name : Option String := none
  id : Option String := none
  metadata : Option (List (String × JVal)) := none

/-- The `type` discriminant string of a part. -/
def partType : MessagePart → String
  | .text _ => "text"
  | .think _ => "think"
  | .image _ _ => "image"
  | .audio _ => "audio"
  | .file _ _ => "file"
  | .toolCall _ => "tool-call"
  | .toolResult _ => "tool-result"

/-- `PartSchema` validation from `messages/part.ts`, as run by
`BaseMessageChunkSchema.parse` inside `concatChunks`.  The union does not
include `ThinkPartSchema`, so think parts are rejected;
`ToolResultPartSchema` declares `toolCallId: z.string()` (required), so a
tool-result part without an id is rejected; zod object parsing strips
undeclared keys, which drops the extra `args` property of tool-result
parts.  All other parts parse to themselves. -/
def parsePart (p : MessagePart) : Except String MessagePart :=
  match p with
  | .think _ => .error "ZodError: invalid input (think parts are not in PartSchema)"
  | .toolResult r =>
    match r.toolCallId with
    | none => .error "ZodError: tool-result part requires toolCallId"
    | some _ => .ok (.toolResult { r with args := none })
  | other => .ok other

/-- `BaseMessageChunkSchema.parse(chunk)` inside `concatChunks`: string
content always parses; array content parses part-wise. -/
def parseChunk (c : BaseMessage) : Except String BaseMessage :=
  match c.content with
  | .str _ => .ok c
  | .parts l => (l.mapM parsePart).map (fun l2 => { c with content := .parts l2 })

/-- The merge of tool-call `args` / tool-result `result` values:
`_mergeDicts(a, b)` after the source's cast to `Record<string, unknown>`.
Spreading or enumerating a non-object JavaScript value contributes no
enumerable own properties for the values this engine produces, modelled
as the empty record (string values would enumerate their characters; the
engine never merges string-typed args/results through this path in the
properties proved below). -/
def jRecordFields : JVal → List (String × JVal)
  | .jobj o => o
  | _ => []

def mergeUnknownRecords (a b : JVal) : Except String JVal :=
  (mergeDicts (jRecordFields a) (jRecordFields b)).map .jobj

/-- JavaScript `a.isError || b.isError` on optional booleans: `||` returns
the second operand whenever the first is falsy (`undefined` or `false`). -/
def jsOrOptBool (a b : Option Bool) : Option Bool :=
  match a with
  | some true => some true
  | _ => b

/-- `_mergeDicts` applied to two same-shaped optional string fields (as
happens when two same-typed image/audio/file/think parts are merged):
absent right value keeps the left, absent left takes the right, two
strings concatenate. -/
def mergeOptStr (a b : Option String) : Option String :=
  match a, b with
  | none, _ => b
  | some x, none => some x
  | some x, some y => some (x ++ y)

/-- `canMerge(a, b)` from `messages/messages.ts`. -/
def canMerge (a b : MessagePart) : Bool :=
  if partType a ≠ partType b then false
  else
    match a, b with
    | .text _, .text _ => true
    | .toolResult r1, .toolResult r2 => r1.toolCallId == r2.toolCallId
    | _, _ => true

/-- `mergeTwoParts(a, b)` from `messages/messages.ts`.  The final
`_mergeDicts(a, b) as MessagePart` catch-all (two same-typed think/image/audio/
file parts) is spelled out field-wise for each constructor: the `type`
key is skipped by `_mergeDicts`, string fields concatenate, and optional
fields merge as in `mergeOptStr`. -/
def mergeTwoParts (a b : MessagePart) : Except String MessagePart :=
  match a, b with
  | .text t1, .text t2 => .ok (.text (t1 ++ t2))
  | .toolResult r1, .toolResult r2 => do
    let m ← mergeUnknownRecords r1.result r2.result
    .ok (.toolResult { r1 with result := m, isError := jsOrOptBool r1.isError r2.isError })
  | .toolCall c1, .toolCall c2 => do
    let m ← mergeUnknownRecords c1.args c2.args
    .ok (.toolCall { c1 with args := m })
  | .think t1, .think t2 => .ok (.think (t1 ++ t2))
  | .image i1 m1, .image i2 m2 => .ok (.image (i1 ++ i2) (mergeOptStr m1 m2))
  | .audio a1, .audio a2 => .ok (.audio (a1 ++ a2))
  | .file f1 m1, .file f2 m2 => .ok (.file (f1 ++ f2) (mergeOptStr m1 m2))
  | x, y =>
    -- remaining cases have different types; the source throws here
    .error ("Cannot merge parts of types " ++ partType x ++ " and " ++ partType y)

/-- Accumulator of the first loop of `concatChunks` (part collection,
name/id/metadata folding). -/
structure CollectState where
  allParts : List MessagePart
  finalName : Option String
  id : Option String
  concatToString : Bool
  mergedMetadata : List (String × JVal)

/-- The per-chunk body of the first `for (const chunk of chunks)` loop of
`concatChunks`, applied to the already-parsed chunk: flatten its content
into `allParts` (string content becomes one text part; array content
clears `concatToString`), fold `name`, `metadata` and `id`, and reject a
chunk whose role differs from the first chunk's role. -/
def collectChunkStep (role0 : Role) (st : CollectState) (parsedChunk : BaseMessage) :
    Except String CollectState := do
  let st := (match parsedChunk.content with
    | .str s => { st with allParts := st.allParts ++ [MessagePart.text s] }
    | .parts l => { st with allParts := st.allParts ++ l, concatToString := false })
  let st := (match parsedChunk.name with
    | some n => { st with finalName := some n }
    | none => st)
  let st ← (match parsedChunk.metadata with
    | some md => do
      let m ← mergeDicts st.mergedMetadata md
      pure { st with mergedMetadata := m }
    | none => pure st)
  if parsedChunk.role ≠ role0 then
    .error ("Cannot merge messages with different roles: " ++ roleToString role0 ++
      " and " ++ roleToString parsedChunk.role)
  else
    .ok (match parsedChunk.id with
      | some i => if i ≠ "" then { st with id := some i } else st
      | none => st)

/-- The first loop of `concatChunks`: parse each chunk, then fold it into
the accumulator with `collectChunkStep`. -/
def collectLoop (role0 : Role) (st : CollectState) :
    List BaseMessage → Except String CollectState
  | [] => .ok st
  | chunk :: rest => do
    let parsedChunk ← parseChunk chunk
    let st ← collectChunkStep role0 st parsedChunk
    collectLoop role0 st rest

/-- The second loop of `concatChunks` (linear traversal with tail-merge):
`mergedContent` grows at the end, and `lastPart` mirrors its last
element. -/
def mergeLoop (mergedContent : List MessagePart) (lastPart : Option MessagePart) :
    List MessagePart → Except String (List MessagePart)
  | [] => .ok mergedContent
  | currentPart :: rest =>
    match lastPart with
    | some lp =>
      if canMerge lp currentPart then do
        let m ← mergeTwoParts lp currentPart
        mergeLoop (mergedContent.dropLast ++ [m]) (some m) rest
      else
        mergeLoop (mergedContent ++ [currentPart]) (some currentPart) rest
    | none => mergeLoop (mergedContent ++ [currentPart]) (some currentPart) rest

/-- `concatChunks(...chunks)` from `messages/messages.ts`.  The source is
variadic; calling it with no chunks dereferences `chunks[0].role` into
`undefined` and produces a value outside the `BaseMessageChunk` contract,
modelled as an error.  The collapse in the returned `content` mirrors the
source condition `mergedContent.length === 1 &&
mergedContent[0].type === 'text' && concatToString`. -/
def concatChunks : List BaseMessage → Except String BaseMessage
  | [] => .error "TypeError: no chunks given"
  | chunks@(c0 :: _) => do
    let st ← collectLoop c0.role
      { allParts := [], finalName := none, id := none,
        concatToString := true, mergedMetadata := [] } chunks
    let mergedContent ← mergeLoop [] none st.allParts
    .ok {
      content :=
        (match mergedContent with
         | [MessagePart.text t] =>
           if st.concatToString then .str t else .parts mergedContent
         | _ => .parts mergedContent)
      name := st.finalName
      role := c0.role
      id := st.id
      metadata := some st.mergedMetadata }

/-- `LanguageModelUsage` from `language-models/index.ts`: token counters,
with `cachedTokens` optional. -/
structure LanguageModelUsage where
  promptTokens : Nat
  completionTokens : Nat
  totalTokens : Nat
  cachedTokens : Option Nat := none
deriving Repr, DecidableEq

/-- `addLanguageModelUsage` from `language-models/index.ts`: field-wise sum
of two usage records, reading an absent `cachedTokens` as 0. -/
def addLanguageModelUsage (usage1 usage2 : LanguageModelUsage) : LanguageModelUsage :=
  { promptTokens := usage1.promptTokens + usage2.promptTokens
    cachedTokens := some (usage1.cachedTokens.getD 0 + usage2.cachedTokens.getD 0)
    completionTokens := usage1.completionTokens + usage2.completionTokens
    totalTokens := usage1.totalTokens + usage2.totalTokens }

/-- `LanguageModelFinishReason` from `language-models/index.ts`. -/
inductive FinishReason where
  | stop
  | length
  | contentFilter
  | toolCalls
  | error
  | other
  | unknown
deriving Repr, DecidableEq

/-- `LanguageModelSource` from `language-models/index.ts` (URL sources of
web-search RAG models). -/
structure LanguageModelSource where
  id : Option String := none
  url : String
  title : Option String := none
deriving Repr, DecidableEq

/-- `LanguageResponseMetadata` from `language-models/index.ts`.  `Date`
timestamps are modelled as natural numbers (milliseconds). -/
structure LanguageResponseMetadata where
  id : Option String := none
  timestamp : Option Nat := none
  model : Option String := none
  responseType : String
deriving Repr, DecidableEq

/-- `LanguageModelToolCall` from `language-models/index.ts`: a model-issued
tool call, with the raw argument text as produced by the model. -/
structure LanguageModelToolCall where
  toolId : Option String := none
  toolName : String
  arguments : String

/-- `BaseTool` from `tools/index.ts`.  The zod `schema` together with
`safeParseJSON` (an external validation layer) is modelled as the total
parse function `schemaParse` carried by the tool: `schemaParse none`
models `schema.safeParse({})` (the empty-arguments path) and
`schemaParse (some text)` models `safeParseJSON({text, schema})`; both
report failure as a value, never as an exception.  `call` models the
async tool body: `Except.error` is a thrown/rejected execution. -/
structure BaseTool where
  name : String
  description : String := ""
  returnDirect : Option Bool := none
  schemaParse : Option String → Except String JVal
  call : JVal → Except String JVal

/-- `String.prototype.trim` (and Lean's own `String.trim`, which is not
kernel-reducible), modelled structurally: strip leading and trailing
whitespace characters. -/
def jsTrim (s : String) : String :=
  ⟨((s.data.dropWhile Char.isWhitespace).reverse.dropWhile Char.isWhitespace).reverse⟩

/-- `doParseToolCall` from `generate/tool-call.ts`: tool lookup by name,
then argument validation; both failure modes produce the `_exception`
sentinel tool-call instead of throwing. -/
def doParseToolCall (toolCall : LanguageModelToolCall) (tools : List BaseTool) : ToolCallPart :=
  let toolName := toolCall.toolName
  match tools.find? (fun tool => tool.name == toolName) with
  | none =>
    { toolCallId := toolCall.toolId
      toolName := "_exception"
      args := .jobj [("error", .jstr ("The tool " ++ toolName ++ " does not exist"))] }
  | some tool =>
    let parseResult :=
      if jsTrim toolCall.arguments == "" then tool.schemaParse none
      else tool.schemaParse (some toolCall.arguments)
    match parseResult with
    | .error msg =>
      { toolCallId := toolCall.toolId
        toolName := "_exception"
        args := .jobj [("error", .jstr ("The tool " ++ toolName ++
          " returned invalid arguments: " ++ msg))] }
    | .ok data =>
      { toolCallId := toolCall.toolId, toolName := toolName, args := data }

/-- `parseToolCall` from `generate/tool-call.ts`: throws when `tools` is
null/undefined, otherwise delegates to `doParseToolCall`. -/
def parseToolCall (toolCall : LanguageModelToolCall) (tools : Option (List BaseTool)) :
    Except String ToolCallPart :=
  match tools with
  | none => .error ("No tools provided for " ++ toolCall.toolName)
  | some ts => .ok (doParseToolCall toolCall ts)

/-- `executeExcetionTool` from `generate/tool-call.ts` (source spelling):
packages the sentinel args as a tool result that echoes them.  The
`Callback` hook invocations are fire-and-forget side effects that no
verified property observes and are not modelled. -/
def executeExcetionTool (toolCallId : Option String) (toolName : String) (args : JVal) :
    ToolResultPart :=
  { toolCallId := toolCallId, toolName := toolName, result := args, args := some args }

/-- One element of the `toolCalls.map` callback inside `executeTools`,
threading the shared `returnDirectly` flag.  The unchecked lookup
`tools.find(...)!` followed by `tool.returnDirect` throws a `TypeError`
when the named tool is not declared, modelled as `Except.error`. -/
def executeToolsStep (tools : List BaseTool) (returnDirectly : Bool) (tc : ToolCallPart) :
    Except String (ToolResultPart × Bool) :=
  if tc.toolName == "_exception" then
    .ok (executeExcetionTool tc.toolCallId tc.toolName tc.args, returnDirectly)
  else
    match tools.find? (fun tool => tool.name == tc.toolName) with
    | none => .error "TypeError: cannot read returnDirect of undefined"
    | some tool =>
      let returnDirectly := if tool.returnDirect.getD false then true else returnDirectly
      match tool.call tc.args with
      | .error error =>
        .ok (executeExcetionTool tc.toolCallId tc.toolName
          (.jobj [("error", .jstr ("The tool " ++ tc.toolName ++
            " failed to execute: " ++ error))]), returnDirectly)
      | .ok toolResult =>
        .ok ({ toolCallId := tc.toolCallId, toolName := tc.toolName,
               result := toolResult, args := some tc.args }, returnDirectly)

/-- The `Promise.all(toolCalls.map ...)` body of `executeTools`.  The
per-call work is independent; results are collected in input order, and
`returnDirectly` accumulates across calls exactly as the shared mutable
flag does.  A rejection of any element rejects the whole. -/
def executeToolsGo (tools : List BaseTool) (calls : List ToolCallPart)
    (returnDirectly : Bool) (acc : List ToolResultPart) :
    Except String (List ToolResultPart × Bool) :=
  match calls with
  | [] => .ok (acc, returnDirectly)
  | tc :: rest => do
    let (r, rd2) ← executeToolsStep tools returnDirectly tc
    executeToolsGo tools rest rd2 (acc ++ [r])

/-- `executeTools` from `generate/tool-call.ts`.  The trailing
`.filter(result => result != null)` keeps every element (no branch of the
map callback produces null) and is the identity here.  `messages` is only
forwarded to the unmodelled callbacks. -/
def executeTools (toolCalls : List ToolCallPart) (tools : List BaseTool)
    (_messages : List BaseMessage) : Except String (List ToolResultPart × Bool) :=
  executeToolsGo tools toolCalls false []

/-- The step-result record of `generate-text.ts` (`StepResult`). -/
structure StepResult where
  text : String
  reasoning : Option String := none
  sources : List LanguageModelSource := []
  toolCalls : List ToolCallPart
  toolResults : List ToolResultPart
  finishReason : FinishReason
  usage : LanguageModelUsage
  metadata : List LanguageResponseMetadata

/-- `GenerateTextResult` from `generate-text.ts`. -/
structure GenerateTextResult where
  text : String
  reasoning : Option String := none
  sources : List LanguageModelSource := []
  toolCalls : List ToolCallPart
  toolResults : List ToolResultPart
  finishReason : FinishReason
  usage : LanguageModelUsage
  metadata : List LanguageResponseMetadata
  steps : List StepResult

/-- The result shape of `LanguageModel.doGenerate` used by
`generatateText` (the unused `response` message is omitted). -/
structure DoGenerateResult where
  text : Option String := none
  reasoning : Option String := none
  finishReason : FinishReason
  usage : Option LanguageModelUsage := none
  responseMetadata : List LanguageResponseMetadata := []
  toolCalls : Option (List LanguageModelToolCall) := none

/-- `toResponseMessages` from `generate-text.ts`. -/
def toResponseMessages (text : String) (toolCalls : List ToolCallPart)
    (toolResults : List ToolResultPart) : List BaseMessage :=
  let responseMessages : List BaseMessage :=
    [{ role := .assistant,
       content := .parts (MessagePart.text text :: toolCalls.map MessagePart.toolCall) }]
  if toolResults.length > 0 then
    responseMessages ++
      [{ role := .tool, content := .parts (toolResults.map MessagePart.toolResult) }]
  else
    responseMessages

/-- The step-type state of the `generatateText` loop (`'continue'` is a
Lean keyword, rendered `cont`). -/
inductive StepType where
  | initial
  | toolResult
  | cont
  | done
deriving Repr, DecidableEq

/-- The `nextStepType` computation of `generatateText` (after
`++stepCount`): `cont` only on a length-truncated step with no tool
calls; `toolResult` when tool calls exist and all have results; otherwise
`done`. -/
def nextStep (stepCount maxSteps : Nat) (finishReason : FinishReason)
    (nCalls nResults : Nat) : StepType :=
  if stepCount < maxSteps then
    if finishReason = .length ∧ nCalls = 0 then .cont
    else if 0 < nCalls ∧ nResults = nCalls then .toolResult
    else .done
  else .done

theorem nextStep_ne_done_lt (stepCount maxSteps : Nat) (fr : FinishReason)
    (nCalls nResults : Nat) (h : nextStep stepCount maxSteps fr nCalls nResults ≠ .done) :
    stepCount < maxSteps := by
  by_contra hlt
  apply h
  unfold nextStep
  simp [hlt]

/-- The mutable locals of the `generatateText` do/while loop. -/
structure GenLoopState where
  responseMessages : List BaseMessage
  metadata : List LanguageResponseMetadata
  stepResults : List StepResult
  text : String
  usage : LanguageModelUsage
  stepCount : Nat
  stepType : StepType

/-- One iteration of the do/while body of `generatateText` from
`generate-text.ts`.  The model is the pure function `doGenerate` from the
full running message history to a response (a model-call failure would
propagate and is not needed by the verified properties).  Returns
`.inl result` when the loop exits (`stepType` would be `done`) and
`.inr state` when another iteration follows. -/
def genLoopBody (doGenerate : List BaseMessage → DoGenerateResult)
    (tools : Option (List BaseTool)) (maxSteps : Nat)
    (formattedPrompt : List BaseMessage) (st : GenLoopState) :
    Except String (GenerateTextResult ⊕ GenLoopState) := do
  let stepInputMessages := formattedPrompt ++ st.responseMessages
  let currentModelResponse := doGenerate stepInputMessages
  let metadata := st.metadata ++ currentModelResponse.responseMetadata
  let currentToolCalls ← (currentModelResponse.toolCalls.getD []).mapM
    (fun toolCall => parseToolCall toolCall tools)
  let (currentToolResults, returnDirectly) ←
    match tools with
    | none => pure (([] : List ToolResultPart), false)
    | some ts => executeTools currentToolCalls ts stepInputMessages
  let usage := addLanguageModelUsage st.usage
    (currentModelResponse.usage.getD
      { promptTokens := 0, completionTokens := 0, totalTokens := 0 })
  let stepCount := st.stepCount + 1
  let nextStepType := nextStep stepCount maxSteps currentModelResponse.finishReason
    currentToolCalls.length currentToolResults.length
  -- if (returnDirectly) stepType = done -- overwritten below by stepType = nextStepType
  let stepType1 := if returnDirectly then StepType.done else st.stepType
  let originalText := currentModelResponse.text.getD ""
  let text := if nextStepType = .cont ∨ stepType1 = .cont
    then st.text ++ originalText else originalText
  let responseMessages ←
    if stepType1 = .cont then
      match st.responseMessages.getLast? with
      | none => .error "TypeError: cannot read content of undefined"
      | some lastMessage =>
        let lastMessage2 := match lastMessage.content with
          | .str s => { lastMessage with content := .str (s ++ originalText) }
          | .parts l =>
            { lastMessage with content := .parts (l ++ [MessagePart.text originalText]) }
        pure (st.responseMessages.dropLast ++ [lastMessage2])
    else
      pure (st.responseMessages ++ toResponseMessages text currentToolCalls currentToolResults)
  let stepResults := st.stepResults ++
    [{ text := text, reasoning := currentModelResponse.reasoning,
       toolCalls := currentToolCalls, toolResults := currentToolResults,
       finishReason := currentModelResponse.finishReason,
       usage := usage, metadata := metadata, sources := [] }]
  if nextStepType = .done then
    .ok (.inl { text := text, reasoning := currentModelResponse.reasoning,
                toolCalls := currentToolCalls, toolResults := currentToolResults,
                finishReason := currentModelResponse.finishReason,
                usage := usage, steps := stepResults, metadata := metadata,
                sources := [] })
  else
    .ok (.inr { responseMessages := responseMessages, metadata := metadata,
                stepResults := stepResults, text := text, usage := usage,
                stepCount := stepCount, stepType := nextStepType })

/-- A continuing iteration advances `stepCount` by exactly one and only
happens strictly below `maxSteps` (the loop increments `stepCount` every
iteration and `nextStepType` stays `done` once `maxSteps` is reached). -/
theorem genLoopBody_inr (doGenerate : List BaseMessage → DoGenerateResult)
    (tools : Option (List BaseTool)) (maxSteps : Nat)
    (formattedPrompt : List BaseMessage) (st st2 : GenLoopState)
    (h : genLoopBody doGenerate tools maxSteps formattedPrompt st = .ok (.inr st2)) :
    st2.stepCount = st.stepCount + 1 ∧ st2.stepCount < maxSteps := by
  unfold genLoopBody at h
  simp only [bind, Except.bind, pure, Except.pure] at h
  repeat' split at h
  all_goals
    first
    | exact Except.noConfusion h
    | exact Sum.noConfusion (Except.ok.inj h)
    | · have h2 := Sum.inr.inj (Except.ok.inj h)
        subst h2
        refine ⟨rfl, ?_⟩
        show st.stepCount + 1 < maxSteps
        exact nextStep_ne_done_lt _ _ _ _ _ (by assumption)

/-- The do/while loop of `generatateText`, driven by `genLoopBody`.  The
loop body increments `stepCount` on every iteration and exits once it
reaches `maxSteps` (`genLoopBody_inr`), so the run performs at most
`maxSteps` iterations; `fuel` is that explicit budget, initialized to
`maxSteps` by `generatateText`, and `genLoop_fuel_irrelevant` shows the
exhaustion branch is unreachable from that initialization. -/
def genLoop (doGenerate : List BaseMessage → DoGenerateResult)
    (tools : Option (List BaseTool)) (maxSteps : Nat)
    (formattedPrompt : List BaseMessage) (fuel : Nat) (st : GenLoopState) :
    Except String GenerateTextResult :=
  match genLoopBody doGenerate tools maxSteps formattedPrompt st with
  | .error e => .error e
  | .ok (.inl r) => .ok r
  | .ok (.inr st2) =>
    match fuel with
    | 0 => .error "unreachable: the loop exits before stepCount reaches maxSteps"
    | fuel + 1 => genLoop doGenerate tools maxSteps formattedPrompt fuel st2

/-- Any step budget covering the remaining `maxSteps - stepCount`
iterations gives the same run; in particular the exhaustion branch of
`genLoop` is dead for the initialization used by `generatateText`. -/
theorem genLoop_fuel_irrelevant (doGenerate : List BaseMessage → DoGenerateResult)
    (tools : Option (List BaseTool)) (maxSteps : Nat)
    (formattedPrompt : List BaseMessage) :
    ∀ (fuel fuel2 : Nat) (st : GenLoopState),
      maxSteps ≤ st.stepCount + fuel → maxSteps ≤ st.stepCount + fuel2 →
      genLoop doGenerate tools maxSteps formattedPrompt fuel st =
        genLoop doGenerate tools maxSteps formattedPrompt fuel2 st := by
  intro fuel
  induction fuel with
  | zero =>
    intro fuel2 st h1 h2
    rw [genLoop, genLoop]
    cases hb : genLoopBody doGenerate tools maxSteps formattedPrompt st with
    | error e => rfl
    | ok v =>
      cases v with
      | inl r => rfl
      | inr st2 =>
        obtain ⟨hinc, hlt⟩ := genLoopBody_inr _ _ _ _ _ _ hb
        omega
  | succ f ih =>
    intro fuel2 st h1 h2
    rw [genLoop, genLoop]
    cases hb : genLoopBody doGenerate tools maxSteps formattedPrompt st with
    | error e => rfl
    | ok v =>
      cases v with
      | inl r => rfl
      | inr st2 =>
        obtain ⟨hinc, hlt⟩ := genLoopBody_inr _ _ _ _ _ _ hb
        cases fuel2 with
        | zero => omega
        | succ f2 =>
          exact ih f2 st2 (by omega) (by omega)

/-- The prompt argument of `generatateText`/`streamText`:
`BaseMessage[] | string`. -/
inductive PromptInput where
  | str (s : String)
  | msgs (l : List BaseMessage)

/-- `generatateText` from `generate-text.ts` (source spelling): prompt
normalization, the json response-format guard, the `maxSteps` guard and
default, then the multi-step loop.  Pass-through model-call settings
(`maxTokens`, `signal`, retry counts, callbacks) do not influence the
loop and are not modelled. -/
def generatateText (doGenerate : List BaseMessage → DoGenerateResult)
    (prompt : PromptInput) (tools : Option (List BaseTool))
    (maxSteps? : Option Nat) (responseFormatIsJson : Bool := false) :
    Except String GenerateTextResult :=
  let formattedPrompt : List BaseMessage :=
    match prompt with
    | .str s => [{ role := Role.user, content := .str s }]
    | .msgs l => l
  if responseFormatIsJson then
    .error "JSON response format not supported yet, please use the generateObject function instead"
  else
    let init : GenLoopState :=
      { responseMessages := [], metadata := [], stepResults := [], text := ""
        usage := { completionTokens := 0, promptTokens := 0,
                   cachedTokens := some 0, totalTokens := 0 }
        stepCount := 0, stepType := .initial }
    match maxSteps? with
    | some ms =>
      if ms < 1 then .error "maxSteps must be greater than 0"
      else genLoop doGenerate tools ms formattedPrompt ms init
    | none => genLoop doGenerate tools 5 formattedPrompt 5 init

/-- `TextStreamPart` from `generate/stream-text.ts`.  The `unknown` error
payload is modelled as a string. -/
inductive TextStreamPart where
  | textDelta (textDelta : String)
  | reasoning (textDelta : String)
  | source (source : LanguageModelSource)
  | toolCall (toolCallId : String) (toolName : String) (args : String)
  | toolResult (toolCallId : String) (toolResult : String)
  | stepStart
  | stepFinish
  | finish (finishReason : FinishReason) (usage : Option LanguageModelUsage)
  | error (error : String)
  | responseMetadata (metadata : LanguageResponseMetadata)
deriving Repr, DecidableEq

/-- `StreamState` from `generate/stream-text.ts` (with
`createInitialState` giving `currentStep = -1`, hence an integer step
counter). -/
structure StreamState where
  stepText : String
  fullText : String
  reasoningText : Option String := none
  stepSources : List LanguageModelSource
  sources : List LanguageModelSource
  toolCalls : List ToolCallPart
  toolResults : List ToolResultPart
  finishReason : Option FinishReason := none
  usage : Option LanguageModelUsage := none
  steps : List StepResult
  metadata : List LanguageResponseMetadata
  currentStep : Int
  currentStepState : StepType

/-- `createInitialState` from `generate/stream-text.ts`. -/
def createInitialState : StreamState :=
  { stepText := "", fullText := "", stepSources := [], sources := []
    toolCalls := [], toolResults := [], steps := [], metadata := []
    currentStep := -1, currentStepState := .initial }

/-- The producer-side closure state of `streamText`: the stream state plus
the `lastPartType` marker and the running `responseMessages` history. -/
structure ProducerState where
  state : StreamState
  lastPartType : String
  responseMessages : List BaseMessage

/-- The captured arguments of one `streamText` invocation that
`handleStreamPart`/`processStream` close over. -/
structure StreamCtx where
  tools : Option (List BaseTool)
  formattedPrompt : List BaseMessage
  modelName : String
  modelId : Option String := none

/-- `handleStreamPart(value)` from `generate/stream-text.ts`: the switch
over the part type followed by the response-metadata boundary emission.
Returns the parts written to the downstream pipe together with either the
updated producer state or the thrown error (`case 'error'` rethrows the
payload; a rejection from `executeTools` in `case 'step-finish'`
propagates).  `now` stands for `Date.now()`. -/
def handleStreamPart (ctx : StreamCtx) (ps : ProducerState) (now : Nat)
    (value : TextStreamPart) :
    List TextStreamPart × Except String ProducerState :=
  let st := ps.state
  let afterSwitch : List TextStreamPart × Except String (StreamState × List BaseMessage) :=
    match value with
    | .textDelta d =>
      ([value], .ok ({ st with
        fullText := st.fullText ++ d
        stepText := st.stepText ++ d
        currentStepState :=
          if st.currentStepState = .initial then .cont else st.currentStepState },
        ps.responseMessages))
    | .reasoning d =>
      ([value], .ok ({ st with
        reasoningText := some (st.reasoningText.getD "" ++ d) }, ps.responseMessages))
    | .source s =>
      ([value], .ok ({ st with
        sources := st.sources ++ [s]
        stepSources := st.stepSources ++ [s] }, ps.responseMessages))
    | .toolCall toolCallId toolName args =>
      (match ctx.tools with
       | none => ([], .ok (st, ps.responseMessages)) -- if (!tools) break
       | some _ =>
         let part : ToolCallPart :=
           { toolCallId := some toolCallId, toolName := toolName, args := .jstr args }
         ([value], .ok ({ st with
           toolCalls := st.toolCalls ++ [part]
           currentStepState := .toolResult }, ps.responseMessages)))
    | .toolResult _ _ =>
      ([value], .ok (st, ps.responseMessages ++
        [{ role := .tool, content := .parts (st.toolResults.map MessagePart.toolResult) }]))
    | .responseMetadata md =>
      ([], .ok ({ st with metadata := st.metadata ++ [md] }, ps.responseMessages))
    | .stepStart =>
      ([value], .ok ({ st with
        currentStep := st.currentStep + 1
        stepText := "", stepSources := [], toolCalls := [], toolResults := []
        currentStepState := .initial }, ps.responseMessages))
    | .stepFinish =>
      (match
        ((if st.toolCalls.length > 0 then
          match executeTools st.toolCalls (ctx.tools.getD [])
              (ctx.formattedPrompt ++ ps.responseMessages) with
          | .error e => .error e
          | .ok (results, returnDirectly) =>
            .ok { st with
              toolResults := results
              currentStepState := if returnDirectly then .done else .cont }
        else .ok { st with currentStepState := StepType.done }) :
          Except String StreamState) with
       | .error e => ([], .error e)
       | .ok st2 =>
         let respMsgs2 :=
           if st2.stepText ≠ "" then
             ps.responseMessages ++
               [{ role := Role.assistant
                  content := .parts (MessagePart.text st2.stepText ::
                    st2.toolCalls.map MessagePart.toolCall) }]
           else ps.responseMessages
         let st3 := { st2 with steps := st2.steps ++
           [{ text := st2.stepText, sources := st2.stepSources
              toolCalls := st2.toolCalls, toolResults := st2.toolResults
              finishReason := st2.finishReason.getD .stop
              usage := st2.usage.getD
                { promptTokens := 0, completionTokens := 0, totalTokens := 0 }
              metadata := st2.metadata }] }
         ([value], .ok (st3, respMsgs2)))
    | .finish finishReason usage? =>
      ([value], .ok ({ st with
        finishReason := some finishReason
        usage :=
          (match usage? with
           | some u =>
             some (match st.usage with
                   | some su => addLanguageModelUsage su u
                   | none => u)
           | none => st.usage)
        currentStepState := .done }, ps.responseMessages))
    | .error e =>
      -- callback?.onError then: throw value.error (nothing is written)
      ([], .error e)
  match afterSwitch with
  | (written, .error e) => (written, .error e)
  | (written, .ok (st2, respMsgs2)) =>
    let currentPartType : String :=
      match value with
      | .toolResult _ _ => "tool-call"
      | .toolCall _ _ _ => "tool-call"
      | .textDelta _ => "text"
      | .reasoning _ => "reasoning"
      | .source _ => "source"
      | _ => ""
    if currentPartType ≠ ps.lastPartType ∧ currentPartType ≠ "" then
      let md : LanguageResponseMetadata :=
        { timestamp := some now
          model := some (ctx.modelId.getD ctx.modelName)
          responseType := currentPartType }
      (written ++ [.responseMetadata md],
       .ok { state := { st2 with metadata := st2.metadata ++ [md] }
             lastPartType := currentPartType
             responseMessages := respMsgs2 })
    else
      (written,
       .ok { state := st2, lastPartType := ps.lastPartType
             responseMessages := respMsgs2 })

/-- How one pass over a model stream inside `processStream` ends:
exhausted, broke out early to run tools, or threw. -/
inductive InnerOutcome where
  | endOfStream (ps : ProducerState)
  | brokeForTools (ps : ProducerState)
  | threw (e : String)

/-- The inner `while` read loop of `processStream`: handle each part in
order and break out of the stream as soon as tool calls have been
recorded, executing them (`executeTools`) and advancing the step. -/
def streamInnerLoop (ctx : StreamCtx) (ps : ProducerState) (now : Nat) :
    List TextStreamPart → List TextStreamPart × InnerOutcome
  | [] => ([], .endOfStream ps)
  | value :: rest =>
    match handleStreamPart ctx ps now value with
    | (written, .error e) => (written, .threw e)
    | (written, .ok ps2) =>
      if ps2.state.toolCalls.length > 0 then
        match executeTools ps2.state.toolCalls (ctx.tools.getD [])
            (ctx.formattedPrompt ++ ps2.responseMessages) with
        | .error e => (written, .threw e)
        | .ok (toolResults, returnDirectly) =>
          (written, .brokeForTools { ps2 with state := { ps2.state with
            toolResults := toolResults
            currentStep := ps2.state.currentStep + 1
            currentStepState := if returnDirectly then .done else .cont } })
      else
        let (w2, out) := streamInnerLoop ctx ps2 now rest
        (written ++ w2, out)

/-- How the producer loop of `processStream` ends.  `outOfFuel` is the
embedding artifact for runs longer than the supplied bound (the source
has no step bound inside its loop; maxSteps is only consulted after the
loop), in which case the promises never settle. -/
inductive LoopOutcome where
  | finished (ps : ProducerState)
  | threw (e : String)
  | outOfFuel

/-- The outer `while` loop of `processStream`: per round, mark the step
done, obtain the next model stream (`doStream`, scripted by invocation
index), feed a `step-start`, consume the stream, and stop once the step
state is `done`. -/
def streamOuterLoop (doStream : Nat → List TextStreamPart) (ctx : StreamCtx)
    (ps : ProducerState) (callIdx : Nat) (now : Nat) (fuel : Nat) :
    List TextStreamPart × LoopOutcome :=
  if ps.state.currentStepState = .done then ([], .finished ps)
  else
    match fuel with
    | 0 => ([], .outOfFuel)
    | fuel + 1 =>
      let ps1 := { ps with state := { ps.state with currentStepState := StepType.done } }
      let stream := doStream callIdx
      match handleStreamPart ctx ps1 now .stepStart with
      | (w0, .error e) => (w0, .threw e)
      | (w0, .ok ps2) =>
        match streamInnerLoop ctx ps2 now stream with
        | (w1, .threw e) => (w0 ++ w1, .threw e)
        | (w1, .endOfStream ps3) | (w1, .brokeForTools ps3) =>
          if ps3.state.currentStepState = .done then (w0 ++ w1, .finished ps3)
          else
            let (w2, out2) := streamOuterLoop doStream ctx ps3 (callIdx + 1) now fuel
            (w0 ++ w1 ++ w2, out2)

/-- The settlement state of one `DelayedPromise`. -/
inductive Settled (α : Type) where
  | pending
  | resolved (value : α)
  | rejected (e : String)
deriving Repr, DecidableEq

/-- The nine deferred result promises exposed by `streamText`. -/
structure StreamPromises where
  text : Settled String
  reasoning : Settled (Option String)
  sources : Settled (List LanguageModelSource)
  finishReason : Settled FinishReason
  usage : Settled LanguageModelUsage
  toolCalls : Settled (List ToolCallPart)
  toolResults : Settled (List ToolResultPart)
  steps : Settled (List StepResult)
  metadata : Settled (List LanguageResponseMetadata)

/-- How the internal pipe's writer ends up. -/
inductive WriterEnd where
  | closed
  | aborted (e : String)
  | stillOpen
deriving Repr, DecidableEq

/-- Observable outcome of the `processStream` producer. -/
structure ProcessStreamResult where
  emitted : List TextStreamPart
  writerEnd : WriterEnd
  promises : StreamPromises

/-- `processStream` from `generate/stream-text.ts`: the producer loop in
its try/catch.  On success every deferred promise resolves from the final
state (after the post-loop `currentStep >= maxSteps` fixup) and the
writer closes; on a thrown error the writer aborts and every one of the
nine promises rejects with that error. -/
def processStream (doStream : Nat → List TextStreamPart) (ctx : StreamCtx)
    (maxSteps : Nat) (initPS : ProducerState) (now : Nat) (fuel : Nat) :
    ProcessStreamResult :=
  let (written, out) := streamOuterLoop doStream ctx initPS 0 now fuel
  match out with
  | .finished ps =>
    let st := ps.state
    let st :=
      if (maxSteps : Int) ≤ st.currentStep then
        { st with finishReason := some .other, currentStepState := .done }
      else st
    { emitted := written
      writerEnd := .closed
      promises :=
        { text := .resolved st.fullText
          reasoning := .resolved st.reasoningText
          sources := .resolved st.sources
          finishReason := .resolved (st.finishReason.getD .stop)
          usage := .resolved (st.usage.getD
            { promptTokens := 0, completionTokens := 0, totalTokens := 0 })
          toolCalls := .resolved st.toolCalls
          toolResults := .resolved st.toolResults
          steps := .resolved st.steps
          metadata := .resolved st.metadata } }
  | .threw e =>
    { emitted := written
      writerEnd := .aborted e
      promises :=
        { text := .rejected e
          reasoning := .rejected e
          sources := .rejected e
          finishReason := .rejected e
          usage := .rejected e
          toolCalls := .rejected e
          toolResults := .rejected e
          steps := .rejected e
          metadata := .rejected e } }
  | .outOfFuel =>
    { emitted := written
      writerEnd := .stillOpen
      promises :=
        { text := .pending, reasoning := .pending, sources := .pending
          finishReason := .pending, usage := .pending, toolCalls := .pending
          toolResults := .pending, steps := .pending, metadata := .pending } }

/-- `streamText` from `generate/stream-text.ts` up to the launch of
`processStream`: prompt normalization and the `maxSteps` guard/default.
The derived stream views (`textStream`, `messageStream`, `fullStream`)
read the emitted parts and are not separately modelled. -/
def streamText (doStream : Nat → List TextStreamPart) (prompt : PromptInput)
    (tools : Option (List BaseTool)) (maxSteps? : Option Nat)
    (modelName : String) (modelId : Option String) (now : Nat) (fuel : Nat) :
    Except String ProcessStreamResult :=
  let formattedPrompt : List BaseMessage :=
    match prompt with
    | .str s => [{ role := Role.user, content := .str s }]
    | .msgs l => l
  let run : Nat → Except String ProcessStreamResult := fun maxSteps =>
    .ok (processStream doStream
      { tools := tools, formattedPrompt := formattedPrompt
        modelName := modelName, modelId := modelId }
      maxSteps
      { state := createInitialState, lastPartType := "", responseMessages := [] }
      now fuel)
  match maxSteps? with
  | some m => if m < 1 then .error "maxSteps must be greater than 0" else run m
  | none => run 5

/-- The `retrier` recursion of `createRetry` from
`utils/transform-message-remove-system.ts`.  Both variants in the source
(fixed `retryTimeout` delay with a per-attempt `maxTimeout` race, and
exponential backoff) share this control flow; the timer-based delay
between attempts has no observable effect on the result, and a timeout
rejection of the race is one possible `Except.error` outcome of an
attempt.  `fn n` is the outcome of invocation number `n` of the wrapped
function (attempt numbering starts at 0).  Returns the result together
with the total number of invocations of `fn`. -/
def retrier (fn : Nat → Except String α)
    (shouldRetry : String → Nat → List (Nat × String) → Bool)
    (retries : Nat) (attempt : Nat) (previousAttempts : List (Nat × String)) :
    Except String α × Nat :=
  match fn attempt with
  | .ok v => (.ok v, 1)
  | .error e =>
    if h : shouldRetry e attempt previousAttempts = false ∨ retries ≤ attempt then
      (.error e, 1)
    else
      let next := retrier fn shouldRetry retries (attempt + 1)
        (previousAttempts ++ [(attempt, e)])
      (next.1, next.2 + 1)
termination_by retries + 1 - attempt
decreasing_by simp_wf; push_neg at h; omega

/-- `createRetry(fn, options)` applied to its arguments: runs `retrier`
from attempt 0 with no history.  The source defaults are `retries = 3`
and `shouldRetry = () => true`. -/
def createRetry (fn : Nat → Except String α)
    (shouldRetry : String → Nat → List (Nat × String) → Bool)
    (retries : Nat) : Except String α × Nat :=
  retrier fn shouldRetry retries 0 []

/-- A primitive value of a `ProviderConfig` field (`apiKey`/`baseURL` are
strings, the limits are numbers). -/
inductive ConfigVal where
  | vstr (s : String)
  | vnum (n : Int)
deriving Repr, DecidableEq

/-- A `ProviderConfig` as the JavaScript object it is at runtime:
insertion-ordered fields, where `some v` is a defined value and `none` a
field present with value `undefined` (`generateConfigId` strips the
latter).  JavaScript objects cannot repeat a key; pool-level facts
therefore assume `Nodup` keys where it matters. -/
def ConfigObject := List (String × Option ConfigVal)

/-- `config[key]` on a config object. -/
def findVal (k : String) : List (String × Option ConfigVal) → Option (Option ConfigVal)
  | [] => none
  | (k2, v) :: rest => if k2 = k then some v else findVal k rest

def quoteJSON (s : String) : String := "\"" ++ s ++ "\""

def configValToJSON : ConfigVal → String
  | .vstr s => quoteJSON s
  | .vnum n => toString n

/-- `JSON.stringify` of the normalized (sorted-key, defined-value) config
record; the config fields in scope contain no characters needing JSON
escapes. -/
def stringifyNormalized (entries : List (String × ConfigVal)) : String :=
  "\x7b" ++
    String.intercalate ","
      (entries.map (fun kv => quoteJSON kv.1 ++ ":" ++ configValToJSON kv.2)) ++
  "\x7d"

/-- `generateConfigId` from `provider/config.ts`: sorted keys, `undefined`
values excluded, `JSON.stringify`, then a sha1 hex digest.  The digest is
a fixed deterministic function of the serialized normal form; the
embedding uses the normal form itself as the identifier, which preserves
the property the pool relies on: equal normal forms give equal ids. -/
def generateConfigId (config : ConfigObject) : String :=
  let sortedKeys := List.insertionSort (· ≤ ·) (config.map Prod.fst)
  let normalized := sortedKeys.filterMap (fun key =>
    match findVal key config with
    | some (some v) => some (key, v)
    | _ => none)
  stringifyNormalized normalized

/-- `ProviderState` from `provider/config.ts`. -/
structure ProviderState where
  id : String
  config : ConfigObject
  currentConcurrent : Int
  enabled : Bool

/-- The pool closure state: the `providers` array and the round-robin
cursor `rrIndex`. -/
structure PoolState where
  providers : List ProviderState
  rrIndex : Nat

/-- `config.maxConcurrentRequests || d` as the pool reads it: JavaScript
`||` falls through to the default on an absent field and on the falsy
number 0 (the `ProviderConfig` type restricts the field to numbers). -/
def maxConcurrentOr (config : ConfigObject) (d : Option Int) : Option Int :=
  match findVal "maxConcurrentRequests" config with
  | some (some (.vnum n)) => if n = 0 then d else some n
  | _ => d

/-- The availability predicate of `getAvailableProviders`:
`p.enabled && p.currentConcurrent < (p.config.maxConcurrentRequests || Infinity)`
(`none` models the Infinity bound). -/
def isAvailable (p : ProviderState) : Bool :=
  p.enabled &&
    (match maxConcurrentOr p.config none with
     | some m => decide (p.currentConcurrent < m)
     | none => true)

/-- A selection strategy together with the `Math.random()` draw it
consumes, so that every possible draw of the two randomized strategies is
covered: `randomDraw k` picks index `k mod n`, and `weightedDraw r`
models `Math.random() * totalWeight = r` in the cumulative scan. -/
inductive StrategyChoice where
  | roundRobin
  | leastConcurrent
  | fallback
  | randomDraw (k : Nat)
  | weightedDraw (r : Int)

/-- The `round-robin` handler from `strategyHandlers`: index
`rrIndex % available.length`, then advance the cursor modulo the same
availability count.  Returns `none` only on an empty list (the caller
has already thrown in that case). -/
def strategyRoundRobin (rrIndex : Nat) (available : List ProviderState) :
    Option (ProviderState × Nat) :=
  match available.get? (rrIndex % available.length) with
  | some p => some (p, (rrIndex + 1) % available.length)
  | none => none

/-- The `least-concurrent` handler: `reduce` keeping the strictly smaller
`currentConcurrent`, ties to the earlier element. -/
def strategyLeastConcurrent : List ProviderState → Option ProviderState
  | [] => none
  | a :: rest =>
    some (rest.foldl
      (fun prev curr =>
        if curr.currentConcurrent < prev.currentConcurrent then curr else prev) a)

/-- The `fallback` handler: first idle config, else the first available. -/
def strategyFallback (available : List ProviderState) : Option ProviderState :=
  match available.find? (fun p => p.currentConcurrent == 0) with
  | some p => some p
  | none => available.head?

/-- The weight `p.config.maxConcurrentRequests || 10` of the
`weighted-random` handler. -/
def weightOf (p : ProviderState) : Int :=
  (maxConcurrentOr p.config (some 10)).getD 10

/-- The cumulative scan of the `weighted-random` handler:
`current += weight; if (random <= current) return provider`. -/
def weightedScan (random : Int) (current : Int) :
    List ProviderState → Option ProviderState
  | [] => none
  | p :: rest =>
    let current := current + weightOf p
    if random ≤ current then some p else weightedScan random current rest

/-- `strategyHandlers[methodStrategy](available)` from
`provider/config.ts`, returning the selected provider and the updated
round-robin cursor (unchanged for the other strategies). -/
def selectProvider (strategy : StrategyChoice) (rrIndex : Nat)
    (available : List ProviderState) : Option (ProviderState × Nat) :=
  match strategy with
  | .roundRobin => strategyRoundRobin rrIndex available
  | .leastConcurrent => (strategyLeastConcurrent available).map (fun p => (p, rrIndex))
  | .fallback => (strategyFallback available).map (fun p => (p, rrIndex))
  | .randomDraw k => (available.get? (k % available.length)).map (fun p => (p, rrIndex))
  | .weightedDraw r =>
    (match weightedScan r 0 available with
     | some p => some (p, rrIndex)
     | none => (available.head?).map (fun p => (p, rrIndex)))

/-- Replace the first provider with the given id.  The source mutates the
selected object in place, which is shared with the `providers` array;
ids produced by `addProvider` are content hashes and never repeat in the
array, so the first match by id is exactly that object. -/
def updateFirstById (id : String) (f : ProviderState → ProviderState) :
    List ProviderState → List ProviderState
  | [] => []
  | p :: rest => if p.id = id then f p :: rest else p :: updateFirstById id f rest

/-- The data exposed on a `ProviderHandle` (`release`/`disable`/`enable`
close over the selected provider and are modelled as pool operations on
its id). -/
structure ProviderHandle where
  id : String
  config : ConfigObject

/-- `addProvider(config)` from `provider/config.ts`: hash-based dedup,
push a fresh enabled state when the id is new. -/
def addProvider (s : PoolState) (config : ConfigObject) : PoolState :=
  let id := generateConfigId config
  if s.providers.any (fun p => p.id == id) then s
  else
    { s with providers := s.providers ++
        [{ id := id, config := config, currentConcurrent := 0, enabled := true }] }

/-- `getProvider(methodStrategy)` from `provider/config.ts`: filter the
available providers, throw `No available providers` on an empty set,
select by strategy, increment the selected provider's
`currentConcurrent`, and hand back the handle. -/
def getProvider (s : PoolState) (strategy : StrategyChoice) :
    Except String (ProviderHandle × PoolState) :=
  let available := s.providers.filter isAvailable
  if available.length = 0 then .error "No available providers"
  else
    match selectProvider strategy s.rrIndex available with
    | none => .error "No available providers" -- unreachable: the list is nonempty
    | some (selected, rrIndex2) =>
      .ok ({ id := selected.id, config := selected.config },
        { providers := updateFirstById selected.id
            (fun p => { p with currentConcurrent := p.currentConcurrent + 1 })
            s.providers
          rrIndex := rrIndex2 })

/-- `release()` on a handle: decrement with a floor of 0. -/
def releaseProvider (s : PoolState) (id : String) : PoolState :=
  { s with providers := (updateFirstById id
      (fun p => { p with currentConcurrent := max 0 (p.currentConcurrent - 1) })
      s.providers) }

/-- `disableProvider(id)` (also the handle's `disable()`). -/
def disableProvider (s : PoolState) (id : String) : PoolState :=
  { s with providers := updateFirstById id (fun p => { p with enabled := false }) s.providers }

/-- `enableProvider(id)` (also the handle's `enable()`). -/
def enableProvider (s : PoolState) (id : String) : PoolState :=
  { s with providers := updateFirstById id (fun p => { p with enabled := true }) s.providers }

/-- `removeProvider(id)`. -/
def removeProvider (s : PoolState) (id : String) : PoolState :=
  { s with providers := s.providers.filter (fun p => p.id ≠ id) }

/-- One client-visible pool operation, for reachability statements.
`acquire` is `getProvider` (a throw leaves the pool unchanged);
`release` may target any id, covering double-release and release after
removal. -/
inductive PoolOp where
  | add (config : ConfigObject)
  | acquire (strategy : StrategyChoice)
  | release (id : String)
  | enable (id : String)
  | disable (id : String)
  | remove (id : String)

def poolStep (s : PoolState) : PoolOp → PoolState
  | .add c => addProvider s c
  | .acquire strat =>
    (match getProvider s strat with
     | .ok (_, s2) => s2
     | .error _ => s)
  | .release id => releaseProvider s id
  | .enable id => enableProvider s id
  | .disable id => disableProvider s id
  | .remove id => removeProvider s id

/-- `createProviderPool` starts from an empty provider list and cursor 0. -/
def emptyPool : PoolState := { providers := [], rrIndex := 0 }

/-- The pool state after a sequence of client operations on a fresh pool. -/
def poolRun (ops : List PoolOp) : PoolState := ops.foldl poolStep emptyPool

/-- `n` rounds of `getProvider('round-robin')` each immediately followed
by `release()` on the returned handle, collecting the handed-out ids. -/
def cycleRR : Nat → PoolState → Except String (List String × PoolState)
  | 0, s => .ok ([], s)
  | k + 1, s => do
    let (handle, s2) ← getProvider s .roundRobin
    let s3 := releaseProvider s2 handle.id
    let (rest, s4) ← cycleRR k s3
    .ok (handle.id :: rest, s4)

/-- C7: for all usage values `u1`, `u2`, `addLanguageModelUsage` sums the
`totalTokens` field — and likewise `promptTokens`, `completionTokens` and
`cachedTokens` (an absent `cachedTokens` read as 0) — and the operation is
commutative and associative. -/
theorem C7_addLanguageModelUsage_additive_comm_assoc :
    ∀ u1 u2 u3 : LanguageModelUsage,
      (addLanguageModelUsage u1 u2).totalTokens = u1.totalTokens + u2.totalTokens ∧
      (addLanguageModelUsage u1 u2).promptTokens = u1.promptTokens + u2.promptTokens ∧
      (addLanguageModelUsage u1 u2).completionTokens =
        u1.completionTokens + u2.completionTokens ∧
      (addLanguageModelUsage u1 u2).cachedTokens =
        some (u1.cachedTokens.getD 0 + u2.cachedTokens.getD 0) ∧
      addLanguageModelUsage u1 u2 = addLanguageModelUsage u2 u1 ∧
      addLanguageModelUsage (addLanguageModelUsage u1 u2) u3 =
        addLanguageModelUsage u1 (addLanguageModelUsage u2 u3) := by
  intro u1 u2 u3
  refine ⟨rfl, rfl, rfl, rfl, ?_, ?_⟩ <;>
    simp [addLanguageModelUsage] <;> omega

/-- Invocation-count bound for `retrier`: a run never invokes the wrapped
function more than `max (retries + 1 - attempt) 1` times. -/
theorem retrier_count_le (fn : Nat → Except String α)
    (sr : String → Nat → List (Nat × String) → Bool) (retries : Nat) :
    ∀ (attempt : Nat) (prev : List (Nat × String)),
      (retrier fn sr retries attempt prev).2 ≤ max (retries + 1 - attempt) 1 := by
  have key : ∀ (k attempt : Nat) (prev : List (Nat × String)),
      retries + 1 - attempt ≤ k →
      (retrier fn sr retries attempt prev).2 ≤ max (retries + 1 - attempt) 1 := by
    intro k
    induction k with
    | zero =>
      intro attempt prev hle
      rw [retrier]
      cases hfn : fn attempt with
      | ok v => simp
      | error e =>
        have hge : retries ≤ attempt := by omega
        simp only
        rw [dif_pos (Or.inr hge)]
        simp
    | succ k ih =>
      intro attempt prev hle
      rw [retrier]
      cases hfn : fn attempt with
      | ok v => simp
      | error e =>
        simp only
        split
        · simp
        · rename_i h
          push_neg at h
          have hlt : attempt < retries := h.2
          have h2 := ih (attempt + 1) (prev ++ [(attempt, e)]) (by omega)
          simp only
          omega
  intro attempt prev
  exact key (retries + 1 - attempt) attempt prev le_rfl

/-- C5: a function failing on its first 2 invocations and succeeding on
the 3rd, wrapped with `retries := 4` (and the always-retry default gate),
returns the success value having invoked the function exactly 3 times.
In general attempt 0 runs immediately, the wrapped function runs at most
`retries + 1` times, and a failed attempt is retried only while
`shouldRetry` holds and `attempt < retries` — otherwise the error is
rethrown after that single invocation. -/
theorem C5_createRetry_retry_bound :
    createRetry (fun n => if n < 2 then Except.error "boom" else Except.ok 42)
      (fun _ _ _ => true) 4 = (Except.ok 42, 3) ∧
    (∀ (α : Type) (fn : Nat → Except String α)
        (sr : String → Nat → List (Nat × String) → Bool) (retries : Nat),
      (createRetry fn sr retries).2 ≤ retries + 1) ∧
    (∀ (α : Type) (fn : Nat → Except String α)
        (sr : String → Nat → List (Nat × String) → Bool)
        (retries attempt : Nat) (prev : List (Nat × String)) (e : String),
      fn attempt = .error e → (sr e attempt prev = false ∨ retries ≤ attempt) →
      retrier fn sr retries attempt prev = (.error e, 1)) := by
  refine ⟨?_, ?_, ?_⟩
  · show retrier _ _ _ _ _ = _
    rw [retrier]; norm_num
    rw [retrier]; norm_num
    rw [retrier]; norm_num
  · intro α fn sr retries
    have h := retrier_count_le fn sr retries 0 []
    have : max (retries + 1 - 0) 1 = retries + 1 := by omega
    rw [this] at h
    exact h
  · intro α fn sr retries attempt prev e hfn hgate
    rw [retrier, hfn]
    simp only
    rw [dif_pos hgate]

/-- Closed instance of the hypotheses of `C5_createRetry_retry_bound`:
a gate that refuses to retry stops after one invocation. -/
theorem C5_createRetry_retry_bound_witness :
    retrier (fun _ => (Except.error "x" : Except String Nat)) (fun _ _ _ => false) 3 0 [] =
      (Except.error "x", 1) :=
  C5_createRetry_retry_bound.2.2 Nat (fun _ => (Except.error "x" : Except String Nat))
    (fun _ _ _ => false) 3 0 [] "x" rfl (Or.inl rfl)

/-- C3 counterexample: `parseToolCall` does not return normally for
*every* tools argument — with `tools` null/undefined it throws
`No tools provided for ...` (lines 15-17 of `generate/tool-call.ts`). -/
theorem C3_parseToolCall_throws_on_null_tools :
    parseToolCall { toolId := some "1", toolName := "t", arguments := "" } none =
      Except.error "No tools provided for t" := rfl

/-- C3 (amended): for every model-issued toolCall and every *non-null*
tools array, `parseToolCall` returns normally; when the name matches no
declared tool, or when schema validation of the arguments fails, the
returned part is the `_exception` sentinel carrying an error payload in
`args` rather than a thrown exception. -/
theorem C3_parseToolCall_never_throws_amended (tc : LanguageModelToolCall)
    (ts : List BaseTool) :
    ∃ p : ToolCallPart, parseToolCall tc (some ts) = .ok p ∧
      ((ts.find? (fun tool => tool.name == tc.toolName) = none →
         p.toolName = "_exception" ∧
         p.args = .jobj [("error",
           .jstr ("The tool " ++ tc.toolName ++ " does not exist"))]) ∧
       (∀ tool, ts.find? (fun t => t.name == tc.toolName) = some tool →
         ∀ msg,
           (if jsTrim tc.arguments == "" then tool.schemaParse none
            else tool.schemaParse (some tc.arguments)) = .error msg →
           p.toolName = "_exception" ∧
           p.args = .jobj [("error",
             .jstr ("The tool " ++ tc.toolName ++
               " returned invalid arguments: " ++ msg))]) ∧
       (∀ tool, ts.find? (fun t => t.name == tc.toolName) = some tool →
         ∀ data,
           (if jsTrim tc.arguments == "" then tool.schemaParse none
            else tool.schemaParse (some tc.arguments)) = .ok data →
           p.toolName = tc.toolName ∧ p.args = data)) := by
  refine ⟨doParseToolCall tc ts, rfl, ?_, ?_, ?_⟩
  · intro hfind
    simp [doParseToolCall, hfind]
  · intro tool hfind msg hparse
    simp only [doParseToolCall, hfind]
    rw [hparse]
    exact ⟨rfl, rfl⟩
  · intro tool hfind data hparse
    simp only [doParseToolCall, hfind]
    rw [hparse]
    exact ⟨rfl, rfl⟩

/-- Closed instance of `C3_parseToolCall_never_throws_amended`: an
unregistered tool name yields the `_exception` sentinel. -/
theorem C3_parseToolCall_never_throws_amended_witness :
    ∃ p : ToolCallPart,
      parseToolCall { toolId := none, toolName := "ghost", arguments := "" }
        (some []) = .ok p ∧ p.toolName = "_exception" := by
  obtain ⟨p, hp, hnf, _, _⟩ := C3_parseToolCall_never_throws_amended
    { toolId := none, toolName := "ghost", arguments := "" } []
  exact ⟨p, hp, (hnf rfl).1⟩

/-- Per-call behaviour of the `executeTools` map body under the lookup
precondition. -/
theorem executeToolsStep_spec (tools : List BaseTool) (rd : Bool) (c : ToolCallPart)
    (h : c.toolName ≠ "_exception" →
      (tools.find? (fun t => t.name == c.toolName)).isSome = true) :
    ∃ r rd2, executeToolsStep tools rd c = .ok (r, rd2) ∧
      r.toolCallId = c.toolCallId ∧ r.toolName = c.toolName := by
  by_cases hx : c.toolName = "_exception"
  · refine ⟨executeExcetionTool c.toolCallId c.toolName c.args, rd, ?_, rfl, rfl⟩
    simp [executeToolsStep, hx]
  · have hs := h hx
    cases hfind : tools.find? (fun t => t.name == c.toolName) with
    | none => rw [hfind] at hs; simp at hs
    | some tool =>
      have hstep : executeToolsStep tools rd c =
          (let returnDirectly := if tool.returnDirect.getD false then true else rd
           match tool.call c.args with
           | .error error =>
             .ok (executeExcetionTool c.toolCallId c.toolName
               (.jobj [("error", .jstr ("The tool " ++ c.toolName ++
                 " failed to execute: " ++ error))]), returnDirectly)
           | .ok toolResult =>
             .ok ({ toolCallId := c.toolCallId, toolName := c.toolName,
                    result := toolResult, args := some c.args }, returnDirectly)) := by
        unfold executeToolsStep
        rw [if_neg (by simp [hx]), hfind]
      rw [hstep]
      cases hcall : tool.call c.args with
      | error e => exact ⟨_, _, rfl, rfl, rfl⟩
      | ok v => exact ⟨_, _, rfl, rfl, rfl⟩

/-- The `Promise.all` fold of `executeTools` returns one result per call,
in input order, under the lookup precondition. -/
theorem executeToolsGo_spec (tools : List BaseTool) :
    ∀ (calls : List ToolCallPart) (rd : Bool) (acc : List ToolResultPart),
      (∀ c ∈ calls, c.toolName ≠ "_exception" →
        (tools.find? (fun t => t.name == c.toolName)).isSome = true) →
      ∃ results rdOut, executeToolsGo tools calls rd acc = .ok (results, rdOut) ∧
        results.map (fun r => r.toolCallId) =
          acc.map (fun r => r.toolCallId) ++ calls.map (fun c => c.toolCallId) ∧
        results.map (fun r => r.toolName) =
          acc.map (fun r => r.toolName) ++ calls.map (fun c => c.toolName) := by
  intro calls
  induction calls with
  | nil =>
    intro rd acc _
    exact ⟨acc, rd, rfl, by simp, by simp⟩
  | cons c rest ih =>
    intro rd acc h
    obtain ⟨r, rd2, hstep, hid, hname⟩ :=
      executeToolsStep_spec tools rd c (h c (by simp))
    obtain ⟨results, rdOut, hgo, hids, hnames⟩ :=
      ih rd2 (acc ++ [r]) (fun c2 hc2 => h c2 (by simp [hc2]))
    refine ⟨results, rdOut, ?_, ?_, ?_⟩
    · rw [executeToolsGo, hstep]
      exact hgo
    · rw [hids]; simp [hid]
    · rw [hnames]; simp [hname]

/-- C10: `executeTools` absorbs tool failures only under the precondition
that every non-`_exception` call names a declared tool; then it returns
one result per call in input order (matching ids and names).  For an
input violating the precondition, the unchecked `tools.find(...)!` lookup
makes it reject with a TypeError instead of producing an `_exception`
result. -/
theorem C10_executeTools_lookup_precondition :
    (∀ (calls : List ToolCallPart) (tools : List BaseTool) (msgs : List BaseMessage),
      (∀ c ∈ calls, c.toolName ≠ "_exception" →
        (tools.find? (fun t => t.name == c.toolName)).isSome = true) →
      ∃ results rd, executeTools calls tools msgs = .ok (results, rd) ∧
        results.map (fun r => r.toolCallId) = calls.map (fun c => c.toolCallId) ∧
        results.map (fun r => r.toolName) = calls.map (fun c => c.toolName)) ∧
    executeTools [{ toolCallId := some "1", toolName := "ghost", args := .jnull }] [] [] =
      .error "TypeError: cannot read returnDirect of undefined" := by
  constructor
  · intro calls tools msgs h
    obtain ⟨results, rd, hgo, hids, hnames⟩ := executeToolsGo_spec tools calls false [] h
    refine ⟨results, rd, hgo, ?_, ?_⟩
    · rw [hids]; simp
    · rw [hnames]; simp
  · rfl

/-- Closed instance of `C10_executeTools_lookup_precondition`: under the
precondition (vacuous for a lone `_exception` call) `executeTools`
returns in input order. -/
theorem C10_executeTools_lookup_precondition_witness :
    ∃ results rd,
      executeTools [{ toolCallId := some "9", toolName := "_exception", args := .jnull }]
        [] [] = .ok (results, rd) ∧
      results.map (fun r => r.toolCallId) = [some "9"] ∧
      results.map (fun r => r.toolName) = ["_exception"] := by
  obtain ⟨results, rd, h1, h2, h3⟩ := C10_executeTools_lookup_precondition.1
    [{ toolCallId := some "9", toolName := "_exception", args := .jnull }] [] []
    (by intro c hc hne; simp at hc; rw [hc] at hne; simp at hne)
  exact ⟨results, rd, h1, h2, h3⟩

/-- A minimal `streamText` invocation context used to evaluate the
producer at concrete inputs. -/
def sampleStreamCtx : StreamCtx :=
  { tools := none, formattedPrompt := [], modelName := "m" }

/-- The producer state right after `streamText` initialises its closure. -/
def initialProducerState : ProducerState :=
  { state := createInitialState, lastPartType := "", responseMessages := [] }

/-- C2 counterexample: on an `error` stream part the producer writes
*nothing* onto the downstream pipe — `case 'error'` throws without a
`writer.write(value)` — so `fullStream` consumers never observe an
`error` part, contrary to the claim that it is emitted downstream. -/
theorem C2_error_part_not_emitted :
    handleStreamPart sampleStreamCtx initialProducerState 0
      (TextStreamPart.error "boom") = ([], Except.error "boom") ∧
    (TextStreamPart.error "boom") ∉
      (handleStreamPart sampleStreamCtx initialProducerState 0
        (TextStreamPart.error "boom")).1 := by
  exact ⟨rfl, by decide⟩

/-- The model stream script used for the amended C2 statement: some text,
then an error part. -/
def sampleErrorStream : Nat → List TextStreamPart :=
  fun _ => [TextStreamPart.textDelta "hel", TextStreamPart.error "boom"]

/-- C2 (amended): when the producer consumes an `error` stream part, the
part is *not* emitted downstream; the error is thrown, which aborts the
producer loop, aborts the writer, and rejects every one of the nine
deferred result promises (text, usage, finishReason, toolCalls,
toolResults, steps, metadata, sources, reasoning). -/
theorem C2_error_throws_and_rejects_all_promises :
    (∀ (ctx : StreamCtx) (ps : ProducerState) (now : Nat) (e : String),
      handleStreamPart ctx ps now (TextStreamPart.error e) = ([], Except.error e)) ∧
    ((processStream sampleErrorStream sampleStreamCtx 5 initialProducerState 7 5).emitted =
      [TextStreamPart.stepStart, TextStreamPart.textDelta "hel",
       TextStreamPart.responseMetadata
         { timestamp := some 7, model := some "m", responseType := "text" }] ∧
     (processStream sampleErrorStream sampleStreamCtx 5 initialProducerState 7 5).writerEnd =
       WriterEnd.aborted "boom" ∧
     (processStream sampleErrorStream sampleStreamCtx 5 initialProducerState 7 5).promises =
       { text := .rejected "boom", reasoning := .rejected "boom"
         sources := .rejected "boom", finishReason := .rejected "boom"
         usage := .rejected "boom", toolCalls := .rejected "boom"
         toolResults := .rejected "boom", steps := .rejected "boom"
         metadata := .rejected "boom" }) := by
  refine ⟨fun ctx ps now e => rfl, rfl, rfl, rfl⟩

deriving instance DecidableEq for Except

/-- A declared tool flagged `returnDirect` whose schema accepts the empty
arguments object. -/
def sampleDirectTool : BaseTool :=
  { name := "direct", description := "returns directly"
    returnDirect := some true
    schemaParse := fun _ => .ok (.jobj [])
    call := fun _ => .ok (.jstr "done") }

/-- A model that answers every prompt with one call to the `direct`
tool. -/
def sampleDirectModel : List BaseMessage → DoGenerateResult :=
  fun _ =>
    { text := some "calling", finishReason := .toolCalls
      toolCalls := some [{ toolId := some "c1", toolName := "direct", arguments := "" }] }

/-- C1 (code bug): a step that executes a return-direct tool does *not*
terminate the `generatateText` loop.  The first conjunct shows the step's
tool execution signals `returnDirectly = true`; the second shows the run
with `maxSteps = 2` performs 2 steps — i.e. a second `model.doGenerate`
call is issued after the return-direct step, because the assignment
`stepType = 'done'` at line 156 of `generate-text.ts` is unconditionally
overwritten by `stepType = nextStepType` at line 211.  (The spec, and the
streaming engine at `stream-text.ts` step-finish handling, both make the
loop stop in this situation.) -/
theorem C1_returnDirect_does_not_stop_loop :
    (executeTools
        [doParseToolCall { toolId := some "c1", toolName := "direct", arguments := "" }
          [sampleDirectTool]]
        [sampleDirectTool] []).map (fun x => x.2) = .ok true ∧
    (generatateText sampleDirectModel (.str "hi") (some [sampleDirectTool]) (some 2)
        false).map (fun r => r.steps.length) = .ok 2 := by
  exact ⟨by decide, by decide⟩

/-- Whether a `MessageContent` is in plain-string form. -/
def contentIsString : MessageContent → Bool
  | .str _ => true
  | .parts _ => false

/-- C4 counterexample: a single chunk whose content is the one-element
part array `[text "hi"]`.  The final merged content is a single text
part, yet `concatChunks` returns the one-element part array, not the
plain string `"hi"` — the collapse additionally requires every input
chunk to have used plain-string content (`concatToString`). -/
theorem C4_single_text_part_does_not_collapse :
    concatChunks [{ role := .assistant, content := .parts [MessagePart.text "hi"] }] =
      .ok { role := Role.assistant, content := .parts [MessagePart.text "hi"],
            name := none, id := none, metadata := some [] } ∧
    contentIsString (MessageContent.parts [MessagePart.text "hi"]) = false :=
  ⟨rfl, rfl⟩

/-- Zod parsing inside `concatChunks` never changes whether a chunk's
content is a string or a part array. -/
theorem parseChunk_contentIsString (c pc : BaseMessage) (h : parseChunk c = .ok pc) :
    contentIsString pc.content = contentIsString c.content := by
  unfold parseChunk at h
  split at h
  · simp only [Except.ok.injEq] at h
    rw [← h]
  · rename_i l heq
    cases hm : l.mapM parsePart with
    | error e => rw [hm] at h; exact Except.noConfusion h
    | ok l2 =>
      rw [hm] at h
      simp only [Except.map, Except.ok.injEq] at h
      rw [← h, heq]
      rfl

/-- One collection step clears `concatToString` exactly when the parsed
chunk supplied its content in array form; nothing else touches the
flag. -/
theorem collectChunkStep_concatToString (role0 : Role) (st : CollectState)
    (pc : BaseMessage) (st3 : CollectState)
    (h : collectChunkStep role0 st pc = .ok st3) :
    st3.concatToString = (st.concatToString && contentIsString pc.content) := by
  unfold collectChunkStep at h
  simp only [bind, Except.bind, pure, Except.pure] at h
  cases hmd : pc.metadata with
  | none =>
    simp only [hmd] at h
    cases hcnt : pc.content <;> simp only [hcnt] at h <;>
      cases hname : pc.name <;> simp only [hname] at h <;>
        repeat' split at h
    all_goals
      first
      | exact Except.noConfusion h
      | · simp only [Except.ok.injEq] at h
          subst h
          simp [contentIsString, hcnt]
  | some md =>
    simp only [hmd] at h
    cases hcnt : pc.content <;> simp only [hcnt] at h <;>
      cases hname : pc.name <;> simp only [hname] at h <;>
        cases hmg : mergeDicts st.mergedMetadata md <;> simp only [hmg] at h <;>
          repeat' split at h
    all_goals
      first
      | exact Except.noConfusion h
      | · simp only [Except.ok.injEq] at h
          subst h
          simp [contentIsString, hcnt]

/-- The `concatToString` flag computed by the collection loop is the
conjunction of the incoming flag with "every chunk's content is a plain
string". -/
theorem collectLoop_concatToString (role0 : Role) :
    ∀ (chunks : List BaseMessage) (st st2 : CollectState),
      collectLoop role0 st chunks = .ok st2 →
      st2.concatToString =
        (st.concatToString && chunks.all (fun c => contentIsString c.content)) := by
  intro chunks
  induction chunks with
  | nil =>
    intro st st2 h
    simp only [collectLoop, Except.ok.injEq] at h
    subst h
    simp
  | cons chunk rest ih =>
    intro st st2 h
    rw [collectLoop] at h
    simp only [bind, Except.bind] at h
    cases hpc : parseChunk chunk with
    | error e => simp only [hpc] at h; exact Except.noConfusion h
    | ok pc =>
      simp only [hpc] at h
      cases hcs : collectChunkStep role0 st pc with
      | error e => simp only [hcs] at h; exact Except.noConfusion h
      | ok st3 =>
        simp only [hcs] at h
        rw [ih _ _ h, collectChunkStep_concatToString _ _ _ _ hcs,
          parseChunk_contentIsString _ _ hpc]
        simp [Bool.and_assoc]

/-- C4 (amended): for chunks accepted by `concatChunks`, the returned
content is a plain string iff the final merged content is a single text
part AND every input chunk supplied its content as a plain string (the
`concatToString` flag); a single merged text part alone does not
collapse when any chunk used array form. -/
theorem C4_collapse_iff_single_text_and_all_strings
    (c0 : BaseMessage) (rest : List BaseMessage) (m : BaseMessage)
    (st : CollectState) (mc : List MessagePart)
    (hst : collectLoop c0.role
      { allParts := [], finalName := none, id := none,
        concatToString := true, mergedMetadata := [] } (c0 :: rest) = .ok st)
    (hmc : mergeLoop [] none st.allParts = .ok mc)
    (hm : concatChunks (c0 :: rest) = .ok m) :
    (∃ s, m.content = .str s) ↔
      ((∃ t, mc = [MessagePart.text t]) ∧
       (c0 :: rest).all (fun c => contentIsString c.content) = true) := by
  have hflag := collectLoop_concatToString c0.role (c0 :: rest) _ st hst
  simp only [Bool.true_and] at hflag
  rw [concatChunks] at hm
  simp only [bind, Except.bind, hst, hmc, Except.ok.injEq] at hm
  subst hm
  dsimp only
  rw [← hflag]
  clear hflag hmc hst
  rcases mc with _ | ⟨p, rest2⟩
  · simp
  · rcases rest2 with _ | ⟨q, rest3⟩
    · cases p
      case text t =>
        cases hflag2 : st.concatToString with
        | true => simp [hflag2]
        | false => simp [hflag2]
      all_goals simp
    · simp

/-- Closed instance of `C4_collapse_iff_single_text_and_all_strings`: a
single plain-string chunk collapses to plain-string content. -/
theorem C4_collapse_iff_single_text_and_all_strings_witness :
    ∃ s, (BaseMessage.mk Role.user (MessageContent.str "a") none none
      (some [])).content = MessageContent.str s := by
  have h := C4_collapse_iff_single_text_and_all_strings
    { role := Role.user, content := .str "a" } []
    { role := Role.user, content := .str "a", name := none, id := none,
      metadata := some [] }
    { allParts := [MessagePart.text "a"], finalName := none, id := none,
      concatToString := true, mergedMetadata := [] }
    [MessagePart.text "a"] rfl rfl rfl
  exact h.mpr ⟨⟨"a", rfl⟩, rfl⟩

instance : DecidableEq ConfigObject :=
  inferInstanceAs (DecidableEq (List (String × Option ConfigVal)))

deriving instance DecidableEq for ProviderState

/-- `updateFirstById` preserves any property that the update function
preserves. -/
theorem updateFirstById_forall (P : ProviderState → Prop) (id : String)
    (f : ProviderState → ProviderState) (hf : ∀ p, P p → P (f p)) :
    ∀ l : List ProviderState, (∀ p ∈ l, P p) →
      ∀ p ∈ updateFirstById id f l, P p := by
  intro l
  induction l with
  | nil => intro _ p hp; simp [updateFirstById] at hp
  | cons q rest ih =>
    intro h p hp
    rw [updateFirstById] at hp
    by_cases hq : q.id = id
    · rw [if_pos hq] at hp
      rcases List.mem_cons.mp hp with h1 | h2
      · exact h1 ▸ hf q (h q (by simp))
      · exact h _ (by simp [h2])
    · rw [if_neg hq] at hp
      rcases List.mem_cons.mp hp with h1 | h2
      · exact h1 ▸ h q (by simp)
      · exact ih (fun p2 hp2 => h p2 (by simp [hp2])) p h2

/-- The pool invariant: every provider's in-flight counter is
non-negative. -/
def poolInv (s : PoolState) : Prop :=
  ∀ p ∈ s.providers, 0 ≤ p.currentConcurrent

/-- Every client-visible pool operation preserves `poolInv`. -/
theorem poolStep_inv (s : PoolState) (op : PoolOp) (h : poolInv s) :
    poolInv (poolStep s op) := by
  cases op with
  | add c =>
    simp only [poolStep, addProvider]
    split
    · exact h
    · intro p hp
      rcases List.mem_append.mp hp with h1 | h2
      · exact h p h1
      · simp only [List.mem_singleton] at h2
        subst h2
        exact le_refl 0
  | acquire strat =>
    simp only [poolStep]
    cases hg : getProvider s strat with
    | error e => exact h
    | ok v =>
      simp only [getProvider] at hg
      split at hg
      · exact Except.noConfusion hg
      · split at hg
        · exact Except.noConfusion hg
        · simp only [Except.ok.injEq] at hg
          subst hg
          exact updateFirstById_forall (fun p => 0 ≤ p.currentConcurrent) _
            (fun p => { p with currentConcurrent := p.currentConcurrent + 1 })
            (fun p hp => by show 0 ≤ p.currentConcurrent + 1; omega) s.providers h
  | release id =>
    intro p hp
    simp only [poolStep, releaseProvider] at hp
    exact updateFirstById_forall (fun p => 0 ≤ p.currentConcurrent) id
      (fun p => { p with currentConcurrent := max 0 (p.currentConcurrent - 1) })
      (fun p _ => le_max_left 0 _) s.providers h p hp
  | enable id =>
    intro p hp
    simp only [poolStep, enableProvider] at hp
    exact updateFirstById_forall (fun p => 0 ≤ p.currentConcurrent) id
      (fun p => { p with enabled := true })
      (fun p hp2 => hp2) s.providers h p hp
  | disable id =>
    intro p hp
    simp only [poolStep, disableProvider] at hp
    exact updateFirstById_forall (fun p => 0 ≤ p.currentConcurrent) id
      (fun p => { p with enabled := false })
      (fun p hp2 => hp2) s.providers h p hp
  | remove id =>
    intro p hp
    simp only [poolStep, removeProvider] at hp
    exact h p (List.mem_of_mem_filter hp)

/-- C8: in every pool state reachable by any sequence of
addProvider / getProvider / release / enable / disable / remove
operations from a fresh pool, every provider's `currentConcurrent` is
non-negative — acquisition adds exactly 1 and `release` decrements with a
floor of 0, so even a double release never drives a counter below
zero. -/
theorem C8_currentConcurrent_nonneg (ops : List PoolOp) :
    ∀ p ∈ (poolRun ops).providers, 0 ≤ p.currentConcurrent := by
  have key : ∀ (l : List PoolOp) (s : PoolState), poolInv s →
      poolInv (l.foldl poolStep s) := by
    intro l
    induction l with
    | nil => intro s hs; exact hs
    | cons op rest ih => intro s hs; exact ih _ (poolStep_inv s op hs)
  exact key ops emptyPool (by intro p hp; simp [emptyPool] at hp)

/-- Closed instance of `C8_currentConcurrent_nonneg`: an acquire followed
by a double release (the counter is floored at 0). -/
theorem C8_currentConcurrent_nonneg_witness :
    0 ≤ (ProviderState.mk (generateConfigId [("apiKey", some (ConfigVal.vstr "k"))])
          [("apiKey", some (ConfigVal.vstr "k"))] 0 true).currentConcurrent :=
  C8_currentConcurrent_nonneg
    [PoolOp.add [("apiKey", some (ConfigVal.vstr "k"))],
     PoolOp.acquire .roundRobin,
     PoolOp.release (generateConfigId [("apiKey", some (ConfigVal.vstr "k"))]),
     PoolOp.release (generateConfigId [("apiKey", some (ConfigVal.vstr "k"))])]
    _ (by decide)

/-- Two consecutive first-match updates on the same id compose (the first
update must preserve the id). -/
theorem updateFirstById_comp (id : String) (f g : ProviderState → ProviderState)
    (hg : ∀ p, (g p).id = p.id) :
    ∀ l : List ProviderState,
      updateFirstById id f (updateFirstById id g l) =
        updateFirstById id (fun p => f (g p)) l := by
  intro l
  induction l with
  | nil => rfl
  | cons q rest ih =>
    by_cases hq : q.id = id
    · simp [updateFirstById, hq, hg]
    · simp [updateFirstById, hq, ih]

/-- Acquire-then-release on an idle pool is the identity on the provider
list: the counter goes 0 → 1 → max 0 0 = 0. -/
theorem updateFirstById_inc_release (id : String) :
    ∀ l : List ProviderState, (∀ p ∈ l, p.currentConcurrent = 0) →
      updateFirstById id
        (fun p => { p with currentConcurrent := max 0 (p.currentConcurrent + 1 - 1) })
        l = l := by
  intro l
  induction l with
  | nil => intro _; rfl
  | cons q rest ih =>
    intro hz
    rw [updateFirstById]
    by_cases hq : q.id = id
    · rw [if_pos hq]
      have hq0 : q.currentConcurrent = 0 := hz q (by simp)
      have : max 0 (q.currentConcurrent + 1 - 1) = q.currentConcurrent := by
        rw [hq0]; rfl
      rw [this]
    · rw [if_neg hq, ih (fun p hp => hz p (by simp [hp]))]

/-- One `getProvider('round-robin')` call on a pool whose providers are
all available: it picks the element at the cursor, bumps its counter and
advances the cursor modulo the availability count. -/
theorem getProvider_roundRobin_step (ps : List ProviderState) (r : Nat)
    (hr : r < ps.length) (p : ProviderState) (hp : ps.get? r = some p)
    (hfilter : ps.filter isAvailable = ps) :
    getProvider ⟨ps, r⟩ StrategyChoice.roundRobin =
      .ok ({ id := p.id, config := p.config },
        { providers := updateFirstById p.id
            (fun q => { q with currentConcurrent := q.currentConcurrent + 1 }) ps
          rrIndex := (r + 1) % ps.length }) := by
  simp only [getProvider, hfilter, selectProvider, strategyRoundRobin]
  rw [Nat.mod_eq_of_lt hr, hp]
  rw [if_neg (by omega)]

/-- The round-robin get/release cycle visits `ps.drop r |>.take k` in
order and restores the pool, for any window that stays within one lap. -/
theorem cycleRR_spec (ps : List ProviderState)
    (hav : ∀ p ∈ ps, isAvailable p = true)
    (hz : ∀ p ∈ ps, p.currentConcurrent = 0) :
    ∀ (k r : Nat), r < ps.length → r + k ≤ ps.length →
      cycleRR k ⟨ps, r⟩ = .ok (((ps.drop r).take k).map (fun p => p.id),
        ⟨ps, (r + k) % ps.length⟩) := by
  have hfilter : ps.filter isAvailable = ps := List.filter_eq_self.mpr hav
  intro k
  induction k with
  | zero =>
    intro r hr _
    simp [cycleRR, Nat.mod_eq_of_lt hr]
  | succ k ih =>
    intro r hr hrk
    obtain ⟨p, hp⟩ : ∃ p, ps.get? r = some p := by
      rw [List.get?_eq_get hr]
      exact ⟨_, rfl⟩
    have hget := getProvider_roundRobin_step ps r hr p hp hfilter
    have hrel : releaseProvider
        { providers := updateFirstById p.id
            (fun q => { q with currentConcurrent := q.currentConcurrent + 1 }) ps
          rrIndex := (r + 1) % ps.length } p.id =
        { providers := ps, rrIndex := (r + 1) % ps.length } := by
      simp only [releaseProvider]
      rw [updateFirstById_comp p.id
        (fun q => { q with currentConcurrent := max 0 (q.currentConcurrent - 1) })
        (fun q => { q with currentConcurrent := q.currentConcurrent + 1 })
        (fun q => rfl) ps]
      congr 1
      exact updateFirstById_inc_release p.id ps hz
    have hdrop : ps.drop r = p :: ps.drop (r + 1) := by
      have := List.get?_eq_get hr
      rw [this] at hp
      rw [List.drop_eq_getElem_cons hr]
      simp only [Option.some.injEq] at hp
      rw [← hp]
      rfl
    rw [cycleRR]
    simp only [bind, Except.bind, hget, hrel]
    by_cases hr1 : r + 1 < ps.length
    · rw [Nat.mod_eq_of_lt hr1, ih (r + 1) hr1 (by omega), hdrop,
        List.take_succ_cons, List.map_cons,
        show r + 1 + k = r + (k + 1) from by omega]
    · have hk0 : k = 0 := by omega
      subst hk0
      rw [cycleRR]
      simp [hdrop]

/-- C6: starting from a fresh pool (all counters 0) whose providers are
all enabled and available, `n` consecutive `getProvider('round-robin')`
calls — each immediately followed by `release()` on the returned handle —
return each of the `n` provider ids exactly once (in list order, with the
pool restored and the cursor back at 0), because the cursor advances
modulo the count of currently-available providers. -/
theorem C6_roundRobin_visits_each_once (ps : List ProviderState)
    (hav : ∀ p ∈ ps, p.enabled = true ∧ p.currentConcurrent = 0 ∧ isAvailable p = true)
    (hnodup : (ps.map (fun p => p.id)).Nodup) :
    cycleRR ps.length ⟨ps, 0⟩ = .ok (ps.map (fun p => p.id), ⟨ps, 0⟩) ∧
    ∀ p ∈ ps, (ps.map (fun q => q.id)).count p.id = 1 := by
  constructor
  · rcases Nat.eq_zero_or_pos ps.length with h0 | hpos
    · have hnil : ps = [] := List.length_eq_zero.mp h0
      subst hnil
      simp [cycleRR]
    · have h := cycleRR_spec ps (fun p hp => (hav p hp).2.2) (fun p hp => (hav p hp).2.1)
        ps.length 0 hpos (by omega)
      simpa using h
  · intro p hp
    exact List.count_eq_one_of_mem hnodup (List.mem_map_of_mem _ hp)

/-- Closed instance of `C6_roundRobin_visits_each_once`: a fresh
two-provider pool hands out both ids in order and restores itself. -/
theorem C6_roundRobin_visits_each_once_witness :
    cycleRR 2 ⟨[{ id := "ida", config := [("apiKey", some (ConfigVal.vstr "ka"))],
                  currentConcurrent := 0, enabled := true },
                { id := "idb", config := [("apiKey", some (ConfigVal.vstr "kb"))],
                  currentConcurrent := 0, enabled := true }], 0⟩ =
      .ok (["ida", "idb"],
        ⟨[{ id := "ida", config := [("apiKey", some (ConfigVal.vstr "ka"))],
            currentConcurrent := 0, enabled := true },
          { id := "idb", config := [("apiKey", some (ConfigVal.vstr "kb"))],
            currentConcurrent := 0, enabled := true }], 0⟩) :=
  (C6_roundRobin_visits_each_once
    [{ id := "ida", config := [("apiKey", some (ConfigVal.vstr "ka"))],
       currentConcurrent := 0, enabled := true },
     { id := "idb", config := [("apiKey", some (ConfigVal.vstr "kb"))],
       currentConcurrent := 0, enabled := true }]
    (by decide) (by decide)).1

/-- On objects with distinct keys, property lookup is insensitive to
field order. -/
theorem findVal_perm (k : String) :
    ∀ {l1 l2 : List (String × Option ConfigVal)}, l1.Perm l2 →
      (l1.map Prod.fst).Nodup → findVal k l1 = findVal k l2 := by
  intro l1 l2 hperm
  induction hperm with
  | nil => intro _; rfl
  | cons x hsub IH =>
    intro hnd
    obtain ⟨k1, v1⟩ := x
    simp only [findVal]
    by_cases hk : k1 = k
    · rw [if_pos hk, if_pos hk]
    · rw [if_neg hk, if_neg hk]
      exact IH (List.nodup_cons.mp hnd).2
  | swap x y l =>
    intro hnd
    obtain ⟨k1, v1⟩ := x
    obtain ⟨k2, v2⟩ := y
    have hne : k2 ≠ k1 := by
      simp only [List.map_cons, List.nodup_cons, List.mem_cons] at hnd
      intro h
      exact hnd.1 (Or.inl h)
    by_cases h1 : k2 = k
    · by_cases h2 : k1 = k
      · exact absurd (h1.trans h2.symm) hne
      · simp [findVal, h1, h2]
    · by_cases h2 : k1 = k
      · simp [findVal, h1, h2]
      · simp [findVal, h1, h2]
  | trans h12 h23 IH12 IH23 =>
    intro hnd
    exact (IH12 hnd).trans (IH23 (((h12.map Prod.fst).nodup_iff).mp hnd))

/-- Sorting with `≤` on strings is invariant under permutation of the
input (sorted permutations of the same list coincide). -/
theorem insertionSort_eq_of_perm {l1 l2 : List String} (h : l1.Perm l2) :
    List.insertionSort (· ≤ ·) l1 = List.insertionSort (· ≤ ·) l2 := by
  refine List.eq_of_perm_of_sorted
    ((List.perm_insertionSort _ l1).trans (h.trans (List.perm_insertionSort _ l2).symm))
    (List.sorted_insertionSort _ l1) (List.sorted_insertionSort _ l2)

/-- C9 core: `generateConfigId` is insensitive to the field order of the
config object (for genuine JS objects, whose keys are distinct). -/
theorem generateConfigId_perm (c1 c2 : ConfigObject) (h : List.Perm c1 c2)
    (hnd : (c1.map Prod.fst).Nodup) :
    generateConfigId c1 = generateConfigId c2 := by
  simp only [generateConfigId]
  rw [insertionSort_eq_of_perm (h.map Prod.fst)]
  congr 1
  apply List.filterMap_congr
  intro key _
  rw [findVal_perm key h hnd]

/-- Adding two configs with the same id leaves the pool exactly as after
adding the first. -/
theorem addProvider_dedup (c1 c2 : ConfigObject)
    (hid : generateConfigId c1 = generateConfigId c2) :
    ∀ s : PoolState, addProvider (addProvider s c1) c2 = addProvider s c1 := by
  intro s
  simp only [addProvider, ← hid]
  by_cases hmem : s.providers.any (fun p => p.id == generateConfigId c1)
  · simp [hmem]
  · simp [hmem, List.any_append]

/-- C9: calling `addProvider` twice with configs of identical content —
including the same key/value pairs in different key orders — leaves
exactly one stored provider state: the id is a deterministic function of
the sorted-key, undefined-stripped JSON normal form, and `addProvider` is
idempotent with respect to that id. -/
theorem C9_addProvider_content_dedup (c1 c2 : ConfigObject)
    (hperm : List.Perm c1 c2) (hnd : (c1.map Prod.fst).Nodup) :
    generateConfigId c1 = generateConfigId c2 ∧
    (∀ s : PoolState, addProvider (addProvider s c1) c2 = addProvider s c1) ∧
    (addProvider (addProvider emptyPool c1) c2).providers.length = 1 := by
  have hid := generateConfigId_perm c1 c2 hperm hnd
  refine ⟨hid, addProvider_dedup c1 c2 hid, ?_⟩
  rw [addProvider_dedup c1 c2 hid]
  simp [addProvider, emptyPool]

/-- Closed instance of `C9_addProvider_content_dedup`: the same two
fields in either order produce the same id and a single pool entry. -/
theorem C9_addProvider_content_dedup_witness :
    generateConfigId [("apiKey", some (ConfigVal.vstr "k")),
                      ("baseURL", some (ConfigVal.vstr "u"))] =
      generateConfigId [("baseURL", some (ConfigVal.vstr "u")),
                        ("apiKey", some (ConfigVal.vstr "k"))] ∧
    (addProvider (addProvider emptyPool
        [("apiKey", some (ConfigVal.vstr "k")), ("baseURL", some (ConfigVal.vstr "u"))])
        [("baseURL", some (ConfigVal.vstr "u")),
         ("apiKey", some (ConfigVal.vstr "k"))]).providers.length = 1 := by
  have h := C9_addProvider_content_dedup
    [("apiKey", some (ConfigVal.vstr "k")), ("baseURL", some (ConfigVal.vstr "u"))]
    [("baseURL", some (ConfigVal.vstr "u")), ("apiKey", some (ConfigVal.vstr "k"))]
    (List.Perm.swap ("baseURL", some (ConfigVal.vstr "u"))
      ("apiKey", some (ConfigVal.vstr "k")) [])
    (by decide)
  exact ⟨h.1, h.2.2⟩
